import Mathlib

/-
Verification of the NBFWM advisor-directory extractor (`app.py`).

The development shallowly embeds the extractor's core pipeline:
text normalizers (`normalize_phone`, `extract_province`), the advisor-link
extractor, the directory location index, the province cascade of the profile
parser, the record deduplicator, the bounded breadth-first crawl loop and the
per-profile fetch loop.  Python strings are modelled as Lean `String`
(working on `String.data` character lists); Python character classes
(`\d`, `\s`, `\w`, `str.lower`) are modelled by executable ASCII/Latin-1
predicates below.  pandas data frames are modelled as lists of records.
-/

namespace NBC

/-! ## Python character and string primitives -/

/-- Whitespace as matched by Python's `\s` / `str.strip` (ASCII part). -/
def pyIsSpace (c : Char) : Bool :=
  c == (' ') || c == ('\t') || c == ('\n') || c == ('\r') ||
  c == (Char.ofNat 11) || c == (Char.ofNat 12)

/-- Digits as matched by Python's `\d` (ASCII part). -/
def pyIsDigit (c : Char) : Bool :=
  ('0') ≤ c && c ≤ ('9')

/-- Word characters as matched by Python's `\b` boundaries (`\w`):
ASCII alphanumerics, underscore, and the Latin-1/Latin-Extended letters
that occur in the province tables. -/
def pyIsWordChar (c : Char) : Bool :=
  (('a') ≤ c && c ≤ ('z')) || (('A') ≤ c && c ≤ ('Z')) ||
  (('0') ≤ c && c ≤ ('9')) || c == ('_') ||
  (0xC0 ≤ c.toNat && c.toNat ≤ 0x24F && c.toNat != 0xD7 && c.toNat != 0xF7)

/-- `str.lower` on the ASCII and Latin-1 letters used by the source. -/
def pyToLower (c : Char) : Char :=
  if ('A') ≤ c && c ≤ ('Z') then Char.ofNat (c.toNat + 32)
  else if 0xC0 ≤ c.toNat && c.toNat ≤ 0xDE && c.toNat != 0xD7 then Char.ofNat (c.toNat + 32)
  else c

/-- `str.upper` on ASCII letters (the source only uppercases 2-letter
ASCII regex groups). -/
def pyToUpper (c : Char) : Char :=
  if ('a') ≤ c && c ≤ ('z') then Char.ofNat (c.toNat - 32) else c

/-- Leading-whitespace drop on a character list. -/
def dropLeadingSpaces (l : List Char) : List Char :=
  l.dropWhile pyIsSpace

/-- Trailing-whitespace drop on a character list. -/
def dropTrailingSpaces (l : List Char) : List Char :=
  (l.reverse.dropWhile pyIsSpace).reverse

/-- Python `str.strip` on a character list. -/
def pyStripList (l : List Char) : List Char :=
  dropTrailingSpaces (dropLeadingSpaces l)

/-- Python `str.strip`. -/
def pyStrip (s : String) : String :=
  ⟨pyStripList s.data⟩

/-- Python `str.lower`. -/
def pyLower (s : String) : String :=
  ⟨s.data.map pyToLower⟩

/-- Does `p` occur as a prefix of `l`? -/
def startsWithList : List Char → List Char → Bool
  | [], _ => true
  | _ :: _, [] => false
  | p :: ps, c :: cs => p == c && startsWithList ps cs

/-- Python's `needle in hay` substring test on character lists. -/
def containsList (needle hay : List Char) : Bool :=
  (List.range (hay.length + 1)).any (fun i => startsWithList needle (hay.drop i))

/-- Python `text.split(sep)` for a one-character separator: every occurrence
splits, empty parts are kept. -/
def splitOnChar (sep : Char) : List Char → List (List Char)
  | [] => [[]]
  | c :: rest =>
    match splitOnChar sep rest with
    | [] => [[c]]
    | h :: t => if c == sep then [] :: h :: t else (c :: h) :: t

/-! ## Province tables (app.py lines 94-117) -/

/-- The 13 alternatives of `PROV_ABBR_RE`, in the regex's alternation order. -/
def provCodes : List String :=
  [("BC"), ("AB"), ("SK"), ("MB"), ("ON"), ("QC"), ("NB"),
   ("NS"), ("PE"), ("NL"), ("NT"), ("NU"), ("YT")]

/-- `FULL_PROV_MAP`, in the dict's insertion order. -/
def FULL_PROV_MAP : List (String × String) :=
  [(("quebec"), ("QC")), (("québec"), ("QC")),
   (("ontario"), ("ON")),
   (("alberta"), ("AB")),
   (("manitoba"), ("MB")),
   (("saskatchewan"), ("SK")),
   (("british columbia"), ("BC")), (("british-columbia"), ("BC")),
   (("colombie britannique"), ("BC")), (("colombie-britannique"), ("BC")),
   (("new brunswick"), ("NB")), (("new-brunswick"), ("NB")),
   (("nouveau brunswick"), ("NB")), (("nouveau-brunswick"), ("NB")),
   (("nova scotia"), ("NS")), (("nova-scotia"), ("NS")),
   (("nouvelle ecosse"), ("NS")), (("nouvelle-écosse"), ("NS")), (("nouvelle-ecosse"), ("NS")),
   (("prince edward island"), ("PE")),
   (("ile du prince edouard"), ("PE")), (("île du prince édouard"), ("PE")),
   (("île-du-prince-édouard"), ("PE")),
   (("newfoundland and labrador"), ("NL")),
   (("terre neuve et labrador"), ("NL")), (("terre-neuve-et-labrador"), ("NL")),
   (("northwest territories"), ("NT")),
   (("territoires du nord ouest"), ("NT")), (("territoires du nord-ouest"), ("NT")),
   (("nunavut"), ("NU")),
   (("yukon"), ("YT"))]

/-! ## `extract_province` (app.py lines 146-162) -/

/-- Is the character at index `i` a word character (out-of-range counts as
a non-word position)? -/
def isWordAt (l : List Char) (i : Nat) : Bool :=
  match l[i]? with
  | some c => pyIsWordChar c
  | none => false

/-- Python regex `\b` at position `i` of `l`. -/
def wordBoundAt (l : List Char) (i : Nat) : Bool :=
  if i = 0 then isWordAt l 0 else isWordAt l (i - 1) != isWordAt l i

/-- A whole-word, case-insensitive occurrence of the 2-letter `code`
starting at index `i` of `l` — one match of `PROV_ABBR_RE`. -/
def standaloneCodeAt (l : List Char) (i : Nat) (code : String) : Bool :=
  ((l.drop i).take 2).map pyToUpper == code.data && wordBoundAt l i && wordBoundAt l (i + 2)

/-- Leftmost-match scan of `PROV_ABBR_RE.search`: try each start index in
order; the second argument is the remaining suffix (`l.drop i`), used as the
structural recursion handle. -/
def provAbbrScanAux (l : List Char) : List Char → Nat → Option String
  | [], _ => none
  | _ :: rest, i =>
    match provCodes.find? (fun c => standaloneCodeAt l i c) with
    | some c => some c
    | none => provAbbrScanAux l rest (i + 1)

/-- `PROV_ABBR_RE.search(text)`, returning the canonical uppercase code
(`m.group(1).upper()` equals the code matched). -/
def provAbbrFind (l : List Char) : Option String :=
  provAbbrScanAux l l 0

/-- `extract_province`: whole-word 2-letter abbreviation first; otherwise
lower-case/strip the text, normalize apostrophes and hyphens, and return the
value of the first `FULL_PROV_MAP` key occurring as a substring. -/
def extract_province (text : String) : String :=
  if text == ("") then ("")
  else
    match provAbbrFind text.data with
    | some c => c
    | none =>
      let t := (pyLower (pyStrip text)).data.map
        (fun c => if c == Char.ofNat 0x2019 then Char.ofNat 39 else c)
      let tn := t.map (fun c => if c == ('-') then (' ') else c)
      match FULL_PROV_MAP.find? (fun kv => containsList kv.1.data t || containsList kv.1.data tn) with
      | some kv => kv.2
      | none => ("")

/-! ## `normalize_phone` (app.py lines 131-137) -/

/-- `f"{digits[0:3]}-{digits[3:6]}-{digits[6:10]}"` on a 10-digit list. -/
def fmtPhone (d : List Char) : List Char :=
  d.take 3 ++ ('-') :: ((d.drop 3).take 3 ++ ('-') :: (d.drop 6).take 4)

/-- `normalize_phone`: keep only digits; drop a leading `1` from an 11-digit
number; format exactly 10 digits as `NNN-NNN-NNNN`; otherwise return the
stripped original input. -/
def normalize_phone (p : String) : String :=
  let digits := p.data.filter pyIsDigit
  let digits := if digits.length = 11 && digits.head? == some ('1') then digits.tail else digits
  if digits.length = 10 then ⟨fmtPhone digits⟩ else pyStrip p

/-! ## URL resolution -/

/-- Scheme-plus-authority part of an absolute URL: everything up to (and
excluding) the first `/` after `://`. -/
def schemeRootAux : List Char → List Char
  | [] => []
  | c :: rest =>
    if startsWithList (String.data ("://")) (c :: rest) then
      (c :: rest).take 3 ++ ((c :: rest).drop 3).takeWhile (fun d => !(d == ('/')))
    else c :: schemeRootAux rest

/-- `urllib.parse.urljoin(base, url)` for the root-relative hrefs (starting
with `/`) that the advisor-link pattern produces; other inputs are returned
unchanged (the source only joins hrefs that matched the `^/advisor/...`
patterns). -/
def urljoin (base url : String) : String :=
  if startsWithList [('/')] url.data then ⟨schemeRootAux base.data ++ url.data⟩ else url

/-! ## Advisor-link pattern (app.py lines 88, 177-191) -/

/-- `X ++ ".html"` with `X` non-empty and all of `X` in the class `ok`:
the `.+\.html` (resp. `[^"]+\.html`) tail of the advisor patterns, anchored
at the end of the input. -/
def advisorTailOk (ok : Char → Bool) (r : List Char) : Bool :=
  decide (6 ≤ r.length) && r.drop (r.length - 5) == String.data (".html") &&
  (r.take (r.length - 5)).all ok

/-- Full match of `/advisor/<M>/(our-team|notre-equipe)/<X>.html` on an
already lower-cased character list, where `M`, `X` are non-empty strings of
characters in the class `ok` (the regex's `.` resp. `[^"]`). -/
def advisorCore (ok : Char → Bool) (l : List Char) : Bool :=
  startsWithList (String.data ("/advisor/")) l &&
  (List.range l.length).any (fun k =>
    decide (1 ≤ k) && ((l.drop 9).take k).all ok &&
    ((startsWithList (String.data ("/our-team/")) (l.drop (9 + k)) &&
      advisorTailOk ok ((l.drop (9 + k)).drop 10)) ||
     (startsWithList (String.data ("/notre-equipe/")) (l.drop (9 + k)) &&
      advisorTailOk ok ((l.drop (9 + k)).drop 14))))

/-- `ADVISOR_HREF_RE.match(href)` (case-insensitive, `^...$`-anchored;
hrefs are pre-stripped, so the `$`-before-final-newline allowance of Python
is immaterial). -/
def advisorHrefMatch (s : String) : Bool :=
  advisorCore (fun c => !(c == ('\n'))) (s.data.map pyToLower)

/-- One quoted candidate of the raw-HTML fallback scan: a quote-free segment
fully matching `/advisor/[^"]+/(our-team|notre-equipe)/[^"]+\.html`
(case-insensitive). -/
def advisorQuotedMatch (seg : List Char) : Bool :=
  advisorCore (fun c => !(c == Char.ofNat 34)) (seg.map pyToLower)

/-- Non-overlapping leftmost matching of
`"/advisor/[^"]+/(?:our-team|notre-equipe)/[^"]+\.html"` over the raw HTML,
presented on the segments between consecutive `"` characters: a matching
segment consumes both surrounding quotes, so the segment right after a match
has no opening quote left and cannot itself match. -/
def scanSegs : List (List Char) → List (List Char)
  | _ :: s1 :: s2 :: rest =>
    if advisorQuotedMatch s1 then s1 :: scanSegs (s2 :: rest) else scanSegs (s1 :: s2 :: rest)
  | _ => []

/-- `re.finditer` of the quoted advisor pattern over the raw HTML; each
match is returned with its quotes stripped (`m.group(0).strip('"')`). -/
def scanQuoted (raw : String) : List String :=
  (scanSegs (splitOnChar (Char.ofNat 34) raw.data)).map (fun l => (⟨l⟩ : String))

/-- The portions of an HTML document that `extract_advisor_urls_from_html`
inspects: the `href` attributes of its `<a href=...>` tags in document
order, and the raw HTML text. -/
structure HtmlDoc where
  anchors : List String
  raw : String

/-- `extract_advisor_urls_from_html`: structured anchor scan plus raw-text
fallback scan, collected into a set and returned sorted (Python
`sorted(links)` over a `set`, modelled as `dedup` plus insertion sort). -/
def extract_advisor_urls_from_html (doc : HtmlDoc) (base : String) : List String :=
  let fromAnchors := ((doc.anchors.map pyStrip).filter advisorHrefMatch).map (fun h => urljoin base h)
  let fromScan := (scanQuoted doc.raw).map (fun h => urljoin base h)
  List.insertionSort (fun a b => a ≤ b) ((fromAnchors ++ fromScan).dedup)

/-! ## Directory location index (app.py lines 120-126, 213-251) -/

/-- The alternatives of `PROV_NAME_PATTERN`, lower-cased, with their
hyphen/space variants spelled out (`British[- ]Columbia` etc.; note that
bare `Newfoundland` is an alternative). -/
def provNamePatternAlts : List String :=
  [("alberta"), ("british columbia"), ("british-columbia"), ("manitoba"),
   ("new brunswick"), ("new-brunswick"), ("nova scotia"), ("nova-scotia"),
   ("ontario"), ("quebec"), ("saskatchewan"), ("prince edward island"),
   ("newfoundland"), ("newfoundland and labrador"),
   ("northwest territories"), ("nunavut"), ("yukon")]

/-- Split at the first comma, if any. -/
def splitFirstComma : List Char → Option (List Char × List Char)
  | [] => none
  | c :: rest =>
    if c == (',') then some ([], rest)
    else
      match splitFirstComma rest with
      | none => none
      | some (a, b) => some (c :: a, b)

/-- Case-insensitive full match of one `PROV_NAME_PATTERN` alternative. -/
def provNameFull (b : List Char) : Bool :=
  provNamePatternAlts.any (fun n => n.data == b.map pyToLower)

/-- `CITY_PROV_LINE_RE.match(line)` for the pre-stripped lines the caller
feeds it, returning `group(1)` (the city part): the line must be
`<city><ws*>,<ws*><FullProvinceName><ws*>` where `<city>` is a non-empty
comma- and newline-free string.  (Since `[^,\n]` cannot cross a comma, the
regex can only split at the line's first comma.) -/
def cityProvMatch (line : String) : Option String :=
  match splitFirstComma line.data with
  | none => none
  | some (a, b) =>
    let g := dropTrailingSpaces a
    if !(g.isEmpty) && a.all (fun c => !(c == ('\n'))) && provNameFull (pyStripList b) then
      some ⟨g⟩
    else none

/-- The stripped non-empty lines of a container text
(`[ln.strip() for ln in text.split("\n") if ln.strip()]`). -/
def anchorLines (text : String) : List String :=
  (((splitOnChar ('\n') text.data).map pyStripList).filter
    (fun l => !(l.isEmpty))).map (fun l => (⟨l⟩ : String))

/-- The data `build_directory_location_lookup` reads from one `<a href=...>`
element of the seed page: its `href` attribute and the visible text of its
card container (`find_parent(["li","article","section","div"])`, or the
immediate parent — the DOM walk itself is abstracted as an input). -/
structure DirAnchor where
  href : String
  containerText : String

/-- A value of the directory location index. -/
structure LocEntry where
  city : String
  province : String
deriving DecidableEq

/-- The loop body of `build_directory_location_lookup` for one anchor:
skip non-advisor hrefs; find the first `City, Province` line of the
container text; record it only if the line's province resolves to a
non-empty code. -/
def anchorEntry (base : String) (a : DirAnchor) : Option (String × LocEntry) :=
  let href := pyStrip a.href
  if !(advisorHrefMatch href) then none
  else
    let profile_url := urljoin base href
    match (anchorLines a.containerText).find? (fun ln => (cityProvMatch ln).isSome) with
    | none => none
    | some ln =>
      match cityProvMatch ln with
      | none => none
      | some g =>
        let prov := extract_province ln
        if prov == ("") then none else some (profile_url, ⟨pyStrip g, prov⟩)

/-- Python dict assignment `d[k] = v`: overwrite in place, else append. -/
def dictInsert (d : List (String × LocEntry)) (k : String) (v : LocEntry) : List (String × LocEntry) :=
  if d.any (fun p => p.1 = k) then d.map (fun p => if p.1 = k then (k, v) else p)
  else d ++ [(k, v)]

/-- Python `d.get(k)` on the association-list model of the dict. -/
def lookupGet (d : List (String × LocEntry)) (k : String) : Option LocEntry :=
  (d.find? (fun p => p.1 = k)).map (fun p => p.2)

/-- One iteration of the `build_directory_location_lookup` anchor loop. -/
def buildStep (base : String) (d : List (String × LocEntry)) (a : DirAnchor) : List (String × LocEntry) :=
  match anchorEntry base a with
  | some (k, v) => dictInsert d k v
  | none => d

/-- `build_directory_location_lookup(directory_html, base)`: the profile-URL
to city/province index built from the seed page's anchors. -/
def build_directory_location_lookup (anchors : List DirAnchor) (base : String) :
    List (String × LocEntry) :=
  anchors.foldl (buildStep base) []

/-! ## Province cascade of `parse_advisor_page` (app.py lines 341-352, 368) -/

/-- The province computation of `parse_advisor_page`: resolve the extracted
address hint; if that is empty, fall back to the directory index entry for
the page URL; the record field is the final `.strip()`ed value. -/
def parse_advisor_page_province (address_hint url : String)
    (dir_lookup : List (String × LocEntry)) : String :=
  let province := extract_province address_hint
  let province :=
    if province == ("") then
      match lookupGet dir_lookup url with
      | some e => e.province
      | none => ("")
    else province
  pyStrip province

/-! ## Records and `dedupe_rows` (app.py lines 363-372, 375-386) -/

/-- One row of the result table, as produced by `parse_advisor_page`. -/
structure Row where
  name : String
  email : String
  phone : String
  team_name : String
  province : String
  city : String
  address_hint : String
  profile_url : String
deriving DecidableEq

/-- The temporary `email_norm` column: `df["email"].fillna("").str.lower()`
(records model strings directly, so `fillna` is the identity). -/
def email_norm (r : Row) : String := pyLower r.email

/-- The temporary `name_norm` column. -/
def name_norm (r : Row) : String := pyLower r.name

/-- The temporary `phone_norm` column:
`df["phone"].fillna("").str.replace(r"\s+", "", regex=True)`. -/
def phone_norm (r : Row) : String := ⟨r.phone.data.filter (fun c => !(pyIsSpace c))⟩

/-- pandas `drop_duplicates(subset=key, keep="first")`: keep a row iff its
key has not been seen earlier. -/
def dropDupFirst {α κ : Type} [DecidableEq κ] (key : α → κ) (seen : List κ) :
    List α → List α
  | [] => []
  | r :: rest =>
    if key r ∈ seen then dropDupFirst key seen rest
    else r :: dropDupFirst key (key r :: seen) rest

/-- `dedupe_rows`: partition by the boolean mask `email_norm != ""`
(`df[has_email]` keeps input order), deduplicate the has-email group by
`email_norm` and the no-email group by `(name_norm, phone_norm)`, both with
`keep="first"`, and concatenate (`pd.concat`, has-email group first).  The
source materializes the three norm columns on a copy and drops them from
the output; here they are the key functions above, so the output rows are
the original records. -/
def dedupe_rows (rows : List Row) : List Row :=
  dropDupFirst email_norm [] (rows.filter (fun r => !(email_norm r == ("")))) ++
  dropDupFirst (fun r => (name_norm r, phone_norm r)) []
    (rows.filter (fun r => email_norm r == ("")))

/-! ## Deep-crawl loop (app.py lines 523-547) -/

/-- What the crawl extracts from one successfully fetched page: the result
of `extract_advisor_urls_from_html(html, base)` and of
`extract_internal_html_pages_from_html(html, page, base)`.  The network and
the per-page HTML are abstracted into this oracle; the loop structure is
the embedded code. -/
structure CrawlPage where
  advisorLinks : List String
  internalLinks : List String

/-- The crawl loop's state: FIFO queue, visited set, accumulated advisor
URLs, and the error/page counters.  `dequeued` and `fetched` are ghost
fields recording which pages the loop popped and which it passed to
`safe_get`, for specification only. -/
structure CrawlState where
  q : List String
  seen : List String
  advisors : List String
  dequeued : List String
  fetched : List String
  errors : Nat
  checked : Nat

/-- The `while q and internal_pages_checked < crawl_page_limit` loop:
pop; skip already-seen pages; mark seen; fetch (a failure counts an error
and continues without enqueuing children and without counting toward the
limit); on success accumulate advisor links, enqueue unseen internal pages,
and count the page as processed. -/
def crawl_loop (fetch : String → Option CrawlPage) (limit : Nat) (s : CrawlState) : CrawlState :=
  match hq : s.q with
  | [] => s
  | page :: rest =>
    if hc : s.checked < limit then
      if page ∈ s.seen then
        crawl_loop fetch limit { s with q := rest, dequeued := s.dequeued ++ [page] }
      else
        match fetch page with
        | none =>
          crawl_loop fetch limit { s with
            q := rest, dequeued := s.dequeued ++ [page], seen := s.seen ++ [page],
            fetched := s.fetched ++ [page], errors := s.errors + 1 }
        | some pg =>
          crawl_loop fetch limit { s with
            q := rest ++ pg.internalLinks.filter (fun n => !((s.seen ++ [page]).contains n)),
            dequeued := s.dequeued ++ [page], seen := s.seen ++ [page],
            advisors := s.advisors ++ pg.advisorLinks,
            fetched := s.fetched ++ [page], checked := s.checked + 1 }
    else s
termination_by (limit - s.checked, s.q.length)
decreasing_by
  · apply Prod.Lex.right
    simp [hq]
  · apply Prod.Lex.right
    simp [hq]
  · apply Prod.Lex.left
    omega

/-- The deep crawl: run the loop from the seed directory URL with empty
visited set and zero counters. -/
def deep_crawl (fetch : String → Option CrawlPage) (limit : Nat) (seedUrl : String) : CrawlState :=
  crawl_loop fetch limit ⟨[seedUrl], [], [], [], [], 0, 0⟩

/-! ## Per-profile fetch loop (app.py lines 509-601) -/

/-- The run configuration fields the per-profile loop reads. -/
structure RunCfg where
  qcOnly : Bool
  cityContains : String

/-- The filter section of the per-profile loop body: drop the row when the
province filter is on and the province is not `QC`; drop it when a
non-empty city filter does not occur (case-insensitively) in the
city-plus-address-hint text. -/
def keep_row (cfg : RunCfg) (row : Row) : Bool :=
  if cfg.qcOnly && !(row.province == ("QC")) then false
  else if !(pyStrip cfg.cityContains == ("")) &&
      !(containsList (pyLower (pyStrip cfg.cityContains)).data
        (pyLower (row.city ++ (" ") ++ row.address_hint)).data) then false
  else true

/-- The `for i, url in enumerate(advisor_urls)` loop.  `fetchParse`
abstracts `safe_get` followed by `parse_advisor_page` for one URL (`none`
models an exception from the fetch).  Returns the accumulated rows and the
`kept` and `errors` counters. -/
def profile_loop (fetchParse : String → Option Row) (cfg : RunCfg) :
    List String → List Row × Nat × Nat
  | [] => ([], 0, 0)
  | u :: us =>
    let rest := profile_loop fetchParse cfg us
    match fetchParse u with
    | none => (rest.1, rest.2.1, rest.2.2 + 1)
    | some row =>
      if keep_row cfg row then (row :: rest.1, rest.2.1 + 1, rest.2.2)
      else rest

/-- The run around the loop: a failed seed-page fetch aborts
(`st.error` + `st.stop`), otherwise the per-profile loop runs to
completion. -/
def run_extraction (seed : Option String) (fetchParse : String → Option Row) (cfg : RunCfg)
    (urls : List String) : Except Unit (List Row × Nat × Nat) :=
  match seed with
  | none => Except.error ()
  | some _ => Except.ok (profile_loop fetchParse cfg urls)

end NBC

namespace NBC

/-! ## Theorems -/

/-- C3: for every input string, `normalize_phone` strips all non-digit
characters; if 11 digits remain and the first is `1`, that `1` is dropped;
if exactly 10 digits then remain, the result is `NNN-NNN-NNNN`; for any
other digit count the result is the trimmed original input unchanged. -/
theorem normalize_phone_spec (p : String) :
    ((p.data.filter pyIsDigit).length = 10 →
      normalize_phone p = ⟨fmtPhone (p.data.filter pyIsDigit)⟩) ∧
    ((p.data.filter pyIsDigit).length = 11 →
      (p.data.filter pyIsDigit).head? = some ('1') →
      normalize_phone p = ⟨fmtPhone (p.data.filter pyIsDigit).tail⟩) ∧
    ((p.data.filter pyIsDigit).length ≠ 10 →
      ¬((p.data.filter pyIsDigit).length = 11 ∧
        (p.data.filter pyIsDigit).head? = some ('1')) →
      normalize_phone p = pyStrip p) := by
  unfold normalize_phone
  refine ⟨fun h10 => ?_, fun h11 hhd => ?_, fun hn10 hn11 => ?_⟩
  · simp [h10]
  · have hlen : (p.data.filter pyIsDigit).tail.length = 10 := by
      simp [h11]
    simp [h11, hhd, hlen]
  · rcases hc : ((p.data.filter pyIsDigit).length = 11 &&
        (p.data.filter pyIsDigit).head? == some ('1')) with _ | _
    · simp only [hc]
      simp [hn10]
    · exfalso
      apply hn11
      simpa using hc

lemma provCodes_data_length {c : String} (hc : c ∈ provCodes) : c.data.length = 2 := by
  have hall : provCodes.all (fun c => c.data.length == 2) = true := by decide
  exact eq_of_beq (List.all_eq_true.mp hall c hc)

lemma standaloneCodeAt_lt_length {l : List Char} {i : Nat} {code : String}
    (hmem : code ∈ provCodes) (h : standaloneCodeAt l i code = true) :
    i + 2 ≤ l.length := by
  have h1 : (((l.drop i).take 2).map pyToUpper == code.data) = true := by
    have := (Bool.and_eq_true _ _).mp ((Bool.and_eq_true _ _).mp h).1
    exact this.1
  have hdata : ((l.drop i).take 2).map pyToUpper = code.data := eq_of_beq h1
  have hlen : ((l.drop i).take 2).length = 2 := by
    have := congrArg List.length hdata
    simpa [provCodes_data_length hmem] using this
  have : min 2 (l.length - i) = 2 := by simpa [List.length_take, List.length_drop] using hlen
  omega

lemma standaloneCodeAt_unique {l : List Char} {i : Nat} {c₁ c₂ : String}
    (h₁ : standaloneCodeAt l i c₁ = true) (h₂ : standaloneCodeAt l i c₂ = true) :
    c₁ = c₂ := by
  have e₁ : ((l.drop i).take 2).map pyToUpper = c₁.data :=
    eq_of_beq ((Bool.and_eq_true _ _).mp ((Bool.and_eq_true _ _).mp h₁).1).1
  have e₂ : ((l.drop i).take 2).map pyToUpper = c₂.data :=
    eq_of_beq ((Bool.and_eq_true _ _).mp ((Bool.and_eq_true _ _).mp h₂).1).1
  cases c₁
  cases c₂
  congr 1
  exact e₁.symm.trans e₂

lemma provCodes_find_eq {l : List Char} {i : Nat} {code : String}
    (hmem : code ∈ provCodes) (h : standaloneCodeAt l i code = true) :
    provCodes.find? (fun c => standaloneCodeAt l i c) = some code := by
  cases hf : provCodes.find? (fun c => standaloneCodeAt l i c) with
  | none =>
    have := List.find?_eq_none.mp hf code hmem
    simp [h] at this
  | some c' =>
    have hp : standaloneCodeAt l i c' = true := List.find?_some hf
    rw [standaloneCodeAt_unique hp h]

lemma provAbbrScanAux_finds {l : List Char} {code : String} {i : Nat}
    (hmem : code ∈ provCodes) (hi : standaloneCodeAt l i code = true)
    (hfirst : ∀ j, j < i → ∀ c ∈ provCodes, standaloneCodeAt l j c = false) :
    ∀ rem i₀, rem = l.drop i₀ → i₀ ≤ i → provAbbrScanAux l rem i₀ = some code := by
  have hlen : i + 2 ≤ l.length := standaloneCodeAt_lt_length hmem hi
  intro rem
  induction rem with
  | nil =>
    intro i₀ hrem hle
    exfalso
    have : l.length ≤ i₀ := by
      have := congrArg List.length hrem
      simp at this
      omega
    omega
  | cons c rest ih =>
    intro i₀ hrem hle
    unfold provAbbrScanAux
    by_cases heq : i₀ = i
    · subst heq
      rw [provCodes_find_eq hmem hi]
    · have hlt : i₀ < i := lt_of_le_of_ne hle heq
      have hnone : provCodes.find? (fun c => standaloneCodeAt l i₀ c) = none :=
        List.find?_eq_none.mpr (fun c hc => by simp [hfirst i₀ hlt c hc])
      rw [hnone]
      apply ih (i₀ + 1) ?_ hlt
      have : l.drop (i₀ + 1) = (l.drop i₀).drop 1 := by
        rw [List.drop_drop]
      rw [this, ← hrem]
      rfl

/-- C6 (amended): for every text, if a standalone (whole-word,
case-insensitive) occurrence of a 2-letter province code starts at index `i`
and no standalone code occurrence starts earlier, then `extract_province`
returns that code in upper case, regardless of the surrounding content; in
particular the abbreviation branch decides the result before any full-name
substring lookup. -/
theorem extract_province_first_standalone_code (s : String) (i : Nat) (code : String)
    (hmem : code ∈ provCodes)
    (hi : standaloneCodeAt s.data i code = true)
    (hfirst : ∀ j, j < i → ∀ c ∈ provCodes, standaloneCodeAt s.data j c = false) :
    extract_province s = code := by
  have hfind : provAbbrFind s.data = some code := by
    apply provAbbrScanAux_finds hmem hi hfirst s.data 0 (by simp) (Nat.zero_le i)
  have hne : (s == ("")) = false := by
    rcases hb : s == ("") with _ | _
    · rfl
    · exfalso
      have hs : s = ("") := eq_of_beq hb
      have := standaloneCodeAt_lt_length hmem hi
      rw [hs] at this
      simp at this
  unfold extract_province
  rw [hne]
  simp [hfind]

/-- C6 witness: in `"Toronto, Ontario QC x"` the first standalone code is
`QC` (the full name `Ontario` appearing earlier does not win). -/
theorem extract_province_first_standalone_code_witness :
    standaloneCodeAt ("Toronto, Ontario QC x").data 17 ("QC") = true ∧
    extract_province ("Toronto, Ontario QC x") = ("QC") := by
  refine ⟨by decide, ?_⟩
  exact extract_province_first_standalone_code ("Toronto, Ontario QC x") 17 ("QC")
    (by decide) (by decide) (by decide)

/-- C6 counterexample: the claim as stated fails — `"ON BC"` contains the
standalone code `BC`, yet `extract_province` returns `"ON"` (the earliest
standalone code), not `"BC"`. -/
theorem extract_province_standalone_cex :
    standaloneCodeAt ("ON BC").data 3 ("BC") = true ∧ ("BC") ∈ provCodes ∧
    extract_province ("ON BC") = ("ON") ∧ ("ON") ≠ ("BC") := by
  exact ⟨by decide, by decide, by decide, by decide⟩

lemma find?_key_append (d e : List (String × LocEntry)) (q : (String × LocEntry) → Bool) :
    (d ++ e).find? q =
      match d.find? q with
      | some p => some p
      | none => e.find? q := by
  induction d with
  | nil => simp
  | cons p rest ih =>
    by_cases h : q p
    · simp [List.find?_cons_of_pos _ h]
    · simp [List.find?_cons_of_neg _ h, ih]

lemma find?_map_overwrite_other {k u : String} (v : LocEntry) (hu : ¬u = k) :
    ∀ d : List (String × LocEntry),
      ((d.map (fun p => if p.1 = k then (k, v) else p)).find? (fun p => p.1 = u)) =
        d.find? (fun p => p.1 = u) := by
  intro d
  induction d with
  | nil => simp
  | cons p rest ih =>
    by_cases hpk : p.1 = k
    · have h1 : ¬((k, v).1 = u) := fun h => hu h.symm
      have h2 : ¬(p.1 = u) := fun h => hu (h.symm.trans hpk)
      simp only [List.map_cons, hpk, if_pos, if_true]
      rw [List.find?_cons_of_neg _ (by simpa using h1), List.find?_cons_of_neg _ (by simpa using h2)]
      exact ih
    · simp only [List.map_cons, if_neg hpk]
      by_cases hpu : p.1 = u
      · rw [List.find?_cons_of_pos _ (by simpa using hpu), List.find?_cons_of_pos _ (by simpa using hpu)]
      · rw [List.find?_cons_of_neg _ (by simpa using hpu), List.find?_cons_of_neg _ (by simpa using hpu)]
        exact ih

lemma find?_map_overwrite_self {k : String} (v : LocEntry) :
    ∀ d : List (String × LocEntry), d.any (fun p => p.1 = k) = true →
      ((d.map (fun p => if p.1 = k then (k, v) else p)).find? (fun p => p.1 = k)) = some (k, v) := by
  intro d
  induction d with
  | nil => simp
  | cons p rest ih =>
    intro hany
    by_cases hpk : p.1 = k
    · simp only [List.map_cons, hpk, if_pos, if_true]
      rw [List.find?_cons_of_pos _ (by simp)]
    · simp only [List.map_cons, if_neg hpk]
      rw [List.find?_cons_of_neg _ (by simpa using hpk)]
      apply ih
      simpa [hpk] using hany

lemma lookupGet_dictInsert (d : List (String × LocEntry)) (k u : String) (v : LocEntry) :
    lookupGet (dictInsert d k v) u = if u = k then some v else lookupGet d u := by
  unfold dictInsert lookupGet
  by_cases hu : u = k
  · subst hu
    by_cases hany : d.any (fun p => p.1 = u) = true
    · simp only [hany, if_true, if_pos]
      rw [find?_map_overwrite_self v d hany]
      simp
    · rw [if_neg (by simpa using hany), find?_key_append]
      have hnone : d.find? (fun p => p.1 = u) = none := by
        rw [List.find?_eq_none]
        intro p hp hpu
        exact hany (List.any_eq_true.mpr ⟨p, hp, hpu⟩)
      rw [hnone]
      simp
  · rw [if_neg hu]
    by_cases hany : d.any (fun p => p.1 = k) = true
    · rw [if_pos hany, find?_map_overwrite_other v hu d]
    · rw [if_neg (by simpa using hany), find?_key_append]
      have hlast : List.find? (fun p => p.1 = u) [(k, v)] = none := by
        rw [List.find?_eq_none]
        intro p hp hpu
        have hp' : p = (k, v) := by simpa using hp
        have : p.1 = u := of_decide_eq_true hpu
        rw [hp'] at this
        exact hu this.symm
      cases hf : d.find? (fun p => p.1 = u) with
      | some p => simp
      | none => simp [hlast]

lemma lookup_build_aux (base : String) (u : String) :
    ∀ (anchors : List DirAnchor) (d : List (String × LocEntry)),
      lookupGet (anchors.foldl (buildStep base) d) u =
        match ((anchors.filterMap (anchorEntry base)).filter (fun p => p.1 = u)).getLast? with
        | some p => some p.2
        | none => lookupGet d u := by
  intro anchors
  induction anchors with
  | nil => intro d; simp
  | cons a rest ih =>
    intro d
    rw [List.foldl_cons, ih (buildStep base d a)]
    cases hae : anchorEntry base a with
    | none => simp [List.filterMap_cons, hae, buildStep]
    | some kv =>
      obtain ⟨k, v⟩ := kv
      have hstep : buildStep base d a = dictInsert d k v := by simp [buildStep, hae]
      rw [hstep]
      simp only [List.filterMap_cons, hae]
      by_cases hk : k = u
      · subst hk
        rw [List.filter_cons_of_pos (by simp)]
        cases hF : (rest.filterMap (anchorEntry base)).filter (fun p => p.1 = k) with
        | nil =>
          simp only [hF, List.getLast?_singleton, List.getLast?_nil]
          rw [lookupGet_dictInsert d k k v, if_pos rfl]
        | cons f F =>
          have hne : (f :: F) ≠ [] := by simp
          obtain ⟨q, hq⟩ := Option.isSome_iff_exists.mp (by
            rw [List.getLast?_isSome]; exact hne)
          simp only [hF, List.getLast?_cons_cons, hq]
      · rw [List.filter_cons_of_neg (by simpa using hk)]
        cases hL : ((rest.filterMap (anchorEntry base)).filter (fun p => p.1 = u)).getLast? with
        | some p => simp
        | none =>
          simp only []
          rw [lookupGet_dictInsert d k u v, if_neg (fun h => hk h.symm)]

/-- C4 (amended): the Directory Location Index maps a profile URL `u` to
exactly the city/province pair computed from the last advisor anchor for
`u` whose container text has a `City, Province` line whose province
resolves to a non-empty code (`anchorEntry`); a URL none of whose anchors
yields such a line has no entry at all. -/
theorem build_directory_location_lookup_spec (anchors : List DirAnchor) (base : String)
    (u : String) :
    lookupGet (build_directory_location_lookup anchors base) u =
      match ((anchors.filterMap (anchorEntry base)).filter (fun p => p.1 = u)).getLast? with
      | some p => some p.2
      | none => none := by
  unfold build_directory_location_lookup
  rw [lookup_build_aux base u anchors []]
  cases ((anchors.filterMap (anchorEntry base)).filter (fun p => p.1 = u)).getLast? with
  | some p => rfl
  | none => simp [lookupGet]

/-- C4 counterexample: the claim as stated fails.  For an advisor anchor
whose container's first non-empty line is `"Gander, Newfoundland"`, the line
matches `CITY_PROV_LINE_RE` (bare `Newfoundland` is a pattern alternative),
yet the built index is empty — no entry is recorded, because
`extract_province` cannot resolve bare `Newfoundland` (`FULL_PROV_MAP` only
contains `newfoundland and labrador`). -/
theorem build_directory_location_lookup_cex :
    advisorHrefMatch (pyStrip ("/advisor/team-a/our-team/jane.html")) = true ∧
    (anchorLines (("Gander, Newfoundland"))).head? = some (("Gander, Newfoundland")) ∧
    cityProvMatch (("Gander, Newfoundland")) = some (("Gander")) ∧
    extract_province (("Gander, Newfoundland")) = ("") ∧
    build_directory_location_lookup
      [⟨("/advisor/team-a/our-team/jane.html"), ("Gander, Newfoundland")⟩]
      ("https://www.nbfwm.ca") = [] := by
  exact ⟨by decide, by decide, by decide, by decide, by decide⟩

lemma provAbbrScanAux_mem {l : List Char} {c : String} :
    ∀ rem i, provAbbrScanAux l rem i = some c → c ∈ provCodes := by
  intro rem
  induction rem with
  | nil => intro i h; simp [provAbbrScanAux] at h
  | cons x rest ih =>
    intro i h
    unfold provAbbrScanAux at h
    cases hf : provCodes.find? (fun code => standaloneCodeAt l i code) with
    | some c' =>
      rw [hf] at h
      cases h
      exact List.mem_of_find?_eq_some hf
    | none =>
      rw [hf] at h
      exact ih (i + 1) h

lemma extract_province_strip (s : String) :
    pyStrip (extract_province s) = extract_province s := by
  unfold extract_province
  by_cases hs : (s == ("")) = true
  · rw [if_pos hs]
    decide
  · rw [if_neg (by simpa using hs)]
    cases hf : provAbbrFind s.data with
    | some c =>
      have hc : c ∈ provCodes := provAbbrScanAux_mem s.data 0 hf
      have hall : provCodes.all (fun c => pyStrip c == c) = true := by decide
      exact eq_of_beq (List.all_eq_true.mp hall c hc)
    | none =>
      simp only []
      cases hm : FULL_PROV_MAP.find? (fun kv =>
          containsList kv.1.data ((pyLower (pyStrip s)).data.map
            (fun c => if c == Char.ofNat 0x2019 then Char.ofNat 39 else c)) ||
          containsList kv.1.data (((pyLower (pyStrip s)).data.map
            (fun c => if c == Char.ofNat 0x2019 then Char.ofNat 39 else c)).map
            (fun c => if c == ('-') then (' ') else c))) with
      | some kv =>
        have hkv : kv ∈ FULL_PROV_MAP := List.mem_of_find?_eq_some hm
        have hall : FULL_PROV_MAP.all (fun kv => pyStrip kv.2 == kv.2) = true := by decide
        simp only [hm]
        exact eq_of_beq (List.all_eq_true.mp hall kv hkv)
      | none => simp [hm]; decide

lemma anchorEntry_province {base : String} {a : DirAnchor} {k : String} {e : LocEntry}
    (h : anchorEntry base a = some (k, e)) :
    ∃ ln, e.province = extract_province ln := by
  unfold anchorEntry at h
  split at h
  · exact absurd h (by simp)
  rename_i line hline
  split at h
  · exact absurd h (by simp)
  rename_i grp hgrp
  simp only [] at h
  split at h
  · exact absurd h (by simp)
  split at h
  · exact absurd h (by simp)
  refine ⟨line, ?_⟩
  injection h with h2
  have h4 : e = (⟨pyStrip grp, extract_province line⟩ : LocEntry) :=
    (congrArg Prod.snd h2).symm
  rw [h4]

lemma build_lookup_province_strip {anchors : List DirAnchor} {base url : String} {e : LocEntry}
    (h : lookupGet (build_directory_location_lookup anchors base) url = some e) :
    pyStrip e.province = e.province := by
  unfold build_directory_location_lookup at h
  rw [lookup_build_aux base url anchors []] at h
  cases hL : ((anchors.filterMap (anchorEntry base)).filter (fun p => p.1 = url)).getLast? with
  | none => rw [hL] at h; simp [lookupGet] at h
  | some p =>
    rw [hL] at h
    have hmem0 : p ∈ ((anchors.filterMap (anchorEntry base)).filter (fun q => q.1 = url)).getLast? := by
      rw [hL]
      exact rfl
    obtain ⟨hne, heq⟩ := List.mem_getLast?_eq_getLast hmem0
    have hp : p ∈ (anchors.filterMap (anchorEntry base)).filter (fun q => q.1 = url) := by
      rw [heq]
      exact List.getLast_mem hne
    have hp2 : p ∈ anchors.filterMap (anchorEntry base) := List.mem_of_mem_filter hp
    obtain ⟨a, _, hae⟩ := List.mem_filterMap.mp hp2
    have hpe : p.2 = e := by cases h; rfl
    obtain ⟨ln, hln⟩ := anchorEntry_province (k := p.1) (e := p.2) hae
    rw [← hpe, hln]
    exact extract_province_strip ln

/-- C1: for every profile page, the record's province is
`extract_province` of the extracted address hint; exactly when that is
empty, the province is taken from the Directory Location Index entry for
the page URL (its province field), and when no index entry exists the
province is the empty string. -/
theorem parse_province_cascade (hint url base : String) (anchors : List DirAnchor) :
    (extract_province hint ≠ ("") →
      parse_advisor_page_province hint url (build_directory_location_lookup anchors base) =
        extract_province hint) ∧
    (extract_province hint = ("") →
      ∀ e, lookupGet (build_directory_location_lookup anchors base) url = some e →
        parse_advisor_page_province hint url (build_directory_location_lookup anchors base) =
          e.province) ∧
    (extract_province hint = ("") →
      lookupGet (build_directory_location_lookup anchors base) url = none →
      parse_advisor_page_province hint url (build_directory_location_lookup anchors base) =
        ("")) := by
  refine ⟨fun hne => ?_, fun he e hsome => ?_, fun he hnone => ?_⟩
  · have hbe : (extract_province hint == ("")) = false := beq_eq_false_iff_ne.mpr hne
    simp only [parse_advisor_page_province, hbe, Bool.false_eq_true, if_false]
    exact extract_province_strip hint
  · simp only [parse_advisor_page_province, he, hsome, beq_self_eq_true, if_true]
    exact build_lookup_province_strip hsome
  · simp only [parse_advisor_page_province, he, hnone, beq_self_eq_true, if_true]
    decide

/-- C1 witness: with an address hint resolving to no province, the record's
province comes from the directory index entry built from the seed page. -/
theorem parse_province_cascade_witness :
    parse_advisor_page_province ("hello")
      ("https://www.nbfwm.ca/advisor/team-a/our-team/jane.html")
      (build_directory_location_lookup
        [⟨("/advisor/team-a/our-team/jane.html"), ("Montreal, Quebec")⟩]
        ("https://www.nbfwm.ca")) = ("QC") := by
  have h := (parse_province_cascade ("hello")
    ("https://www.nbfwm.ca/advisor/team-a/our-team/jane.html")
    ("https://www.nbfwm.ca")
    [⟨("/advisor/team-a/our-team/jane.html"), ("Montreal, Quebec")⟩]).2.1
    (by decide) ⟨("Montreal"), ("QC")⟩ (by decide)
  exact h

/-- C5: `extract_advisor_urls_from_html` returns a duplicate-free list in
sorted order, and is deterministic and order-independent: permuting the
document's anchors (the discovery order) leaves the result unchanged, so
two runs over the same HTML yield the same set. -/
theorem extract_advisor_urls_deterministic (doc : HtmlDoc) (base : String)
    (anchors2 : List String) (hperm : anchors2.Perm doc.anchors) :
    (extract_advisor_urls_from_html doc base).Nodup ∧
    (extract_advisor_urls_from_html doc base).Sorted (fun a b => a ≤ b) ∧
    extract_advisor_urls_from_html ⟨anchors2, doc.raw⟩ base =
      extract_advisor_urls_from_html doc base := by
  simp only [extract_advisor_urls_from_html]
  refine ⟨?_, ?_, ?_⟩
  · exact (List.perm_insertionSort _ _).symm.nodup (List.nodup_dedup _)
  · exact List.sorted_insertionSort _ _
  · have h1 : ((((anchors2.map pyStrip).filter advisorHrefMatch).map (fun h => urljoin base h)) ++
        (scanQuoted doc.raw).map (fun h => urljoin base h)).Perm
        ((((doc.anchors.map pyStrip).filter advisorHrefMatch).map (fun h => urljoin base h)) ++
        (scanQuoted doc.raw).map (fun h => urljoin base h)) :=
      (((hperm.map pyStrip).filter advisorHrefMatch).map (fun h => urljoin base h)).append_right _
    have h2 := h1.dedup
    exact List.eq_of_perm_of_sorted
      ((List.perm_insertionSort _ _).trans (h2.trans (List.perm_insertionSort _ _).symm))
      (List.sorted_insertionSort _ _) (List.sorted_insertionSort _ _)

/-- C5 witness: swapping the two anchors of a concrete document does not
change the extracted URL list. -/
theorem extract_advisor_urls_deterministic_witness :
    extract_advisor_urls_from_html
      ⟨[("/advisor/b/our-team/y.html"), ("/advisor/a/our-team/x.html")], ("")⟩
      ("https://www.nbfwm.ca") =
    extract_advisor_urls_from_html
      ⟨[("/advisor/a/our-team/x.html"), ("/advisor/b/our-team/y.html")], ("")⟩
      ("https://www.nbfwm.ca") := by
  have h := extract_advisor_urls_deterministic
    ⟨[("/advisor/a/our-team/x.html"), ("/advisor/b/our-team/y.html")], ("")⟩
    ("https://www.nbfwm.ca")
    [("/advisor/b/our-team/y.html"), ("/advisor/a/our-team/x.html")]
    (by decide)
  exact h.2.2

lemma dropDupFirst_sublist {α κ : Type} [DecidableEq κ] (key : α → κ) :
    ∀ (l : List α) (seen : List κ), (dropDupFirst key seen l).Sublist l := by
  intro l
  induction l with
  | nil => intro seen; simp [dropDupFirst]
  | cons r rest ih =>
    intro seen
    unfold dropDupFirst
    by_cases h : key r ∈ seen
    · rw [if_pos h]
      exact (ih seen).trans (List.sublist_cons_self r rest)
    · rw [if_neg h]
      exact (ih (key r :: seen)).cons₂ r

lemma dropDupFirst_find? {α κ : Type} [DecidableEq κ] (key : α → κ) :
    ∀ (l : List α) (seen : List κ) (r : α), r ∈ dropDupFirst key seen l →
      key r ∉ seen ∧ l.find? (fun x => key x = key r) = some r := by
  intro l
  induction l with
  | nil => intro seen r hr; simp [dropDupFirst] at hr
  | cons x rest ih =>
    intro seen r hr
    unfold dropDupFirst at hr
    by_cases h : key x ∈ seen
    · rw [if_pos h] at hr
      obtain ⟨hns, hf⟩ := ih seen r hr
      refine ⟨hns, ?_⟩
      have hne : ¬(key x = key r) := fun hxy => hns (hxy ▸ h)
      rw [List.find?_cons_of_neg _ (by simpa using hne)]
      exact hf
    · rw [if_neg h] at hr
      rcases List.mem_cons.mp hr with hr | hr
      · subst hr
        exact ⟨h, by rw [List.find?_cons_of_pos _ (by simp)]⟩
      · obtain ⟨hns, hf⟩ := ih (key x :: seen) r hr
        have hne : ¬(key x = key r) := fun hxy => hns (by rw [← hxy]; exact List.mem_cons_self _ _)
        refine ⟨fun hs => hns (List.mem_cons_of_mem _ hs), ?_⟩
        rw [List.find?_cons_of_neg _ (by simpa using hne)]
        exact hf

lemma dropDupFirst_keys_nodup {α κ : Type} [DecidableEq κ] (key : α → κ) :
    ∀ (l : List α) (seen : List κ),
      ((dropDupFirst key seen l).map key).Nodup ∧
      ∀ r ∈ dropDupFirst key seen l, key r ∉ seen := by
  intro l
  induction l with
  | nil => intro seen; simp [dropDupFirst]
  | cons x rest ih =>
    intro seen
    unfold dropDupFirst
    by_cases h : key x ∈ seen
    · rw [if_pos h]
      exact ih seen
    · rw [if_neg h]
      obtain ⟨hnd, hni⟩ := ih (key x :: seen)
      refine ⟨?_, ?_⟩
      · rw [List.map_cons, List.nodup_cons]
        refine ⟨?_, hnd⟩
        intro hmem
        obtain ⟨r, hr, hkr⟩ := List.mem_map.mp hmem
        exact hni r hr (hkr ▸ List.mem_cons_self _ _)
      · intro r hr
        rcases List.mem_cons.mp hr with hr | hr
        · subst hr; exact h
        · exact fun hs => hni r hr (List.mem_cons_of_mem _ hs)

lemma dropDupFirst_id {α κ : Type} [DecidableEq κ] (key : α → κ) :
    ∀ (l : List α) (seen : List κ), ((l.map key).Nodup) → (∀ r ∈ l, key r ∉ seen) →
      dropDupFirst key seen l = l := by
  intro l
  induction l with
  | nil => intro seen _ _; rfl
  | cons x rest ih =>
    intro seen hnd hns
    rw [List.map_cons, List.nodup_cons] at hnd
    unfold dropDupFirst
    rw [if_neg (hns x (List.mem_cons_self _ _))]
    congr 1
    apply ih (key x :: seen) hnd.2
    intro r hr
    intro hmem
    rcases List.mem_cons.mp hmem with hmem | hmem
    · exact hnd.1 (hmem ▸ List.mem_map_of_mem key hr)
    · exact hns r (List.mem_cons_of_mem _ hr) hmem

/-- C2: `dedupe_rows` partitions its input into the records with non-empty
normalized (lower-cased) email and the rest; the first group is
deduplicated by normalized email keeping the first occurrence, the second
by (lower-cased name, whitespace-stripped phone) keeping the first
occurrence; the output is the has-email group followed by the no-email
group, each group a subsequence of the input (input order), and each
survivor is the first input record carrying its key. -/
theorem dedupe_rows_spec (rows : List Row) :
    dedupe_rows rows =
      dropDupFirst email_norm [] (rows.filter (fun r => !(email_norm r == ("")))) ++
      dropDupFirst (fun r => (name_norm r, phone_norm r)) []
        (rows.filter (fun r => email_norm r == (""))) ∧
    (dropDupFirst email_norm []
      (rows.filter (fun r => !(email_norm r == (""))))).Sublist rows ∧
    (dropDupFirst (fun r => (name_norm r, phone_norm r)) []
      (rows.filter (fun r => email_norm r == ("")))).Sublist rows ∧
    (∀ r ∈ dropDupFirst email_norm [] (rows.filter (fun r => !(email_norm r == ("")))),
      (rows.filter (fun x => !(email_norm x == ("")))).find?
        (fun x => email_norm x = email_norm r) = some r) ∧
    (∀ r ∈ dropDupFirst (fun x => (name_norm x, phone_norm x)) []
        (rows.filter (fun r => email_norm r == (""))),
      (rows.filter (fun x => email_norm x == (""))).find?
        (fun x => (name_norm x, phone_norm x) = (name_norm r, phone_norm r)) = some r) := by
  refine ⟨rfl, ?_, ?_, ?_, ?_⟩
  · exact (dropDupFirst_sublist email_norm _ []).trans (List.filter_sublist rows)
  · exact (dropDupFirst_sublist _ _ []).trans (List.filter_sublist rows)
  · intro r hr
    exact (dropDupFirst_find? email_norm _ [] r hr).2
  · intro r hr
    exact (dropDupFirst_find? _ _ [] r hr).2

/-- C2 witness: of two records with the same normalized email and
different names, only the first survives as the group's representative. -/
theorem dedupe_rows_spec_witness :
    (([(⟨("Jane"), ("JANE@x.com"), ("514 555 1234"), (""), (""), (""), (""), ("u1")⟩ : Row),
       ⟨("Janet"), ("jane@X.COM"), (""), (""), (""), (""), (""), ("u2")⟩].filter
        (fun x => !(email_norm x == ("")))).find?
      (fun x => email_norm x =
        email_norm (⟨("Jane"), ("JANE@x.com"), ("514 555 1234"), (""), (""), (""), (""), ("u1")⟩ : Row))) =
      some (⟨("Jane"), ("JANE@x.com"), ("514 555 1234"), (""), (""), (""), (""), ("u1")⟩ : Row) := by
  exact (dedupe_rows_spec
    [(⟨("Jane"), ("JANE@x.com"), ("514 555 1234"), (""), (""), (""), (""), ("u1")⟩ : Row),
     ⟨("Janet"), ("jane@X.COM"), (""), (""), (""), (""), (""), ("u2")⟩]).2.2.2.1
    (⟨("Jane"), ("JANE@x.com"), ("514 555 1234"), (""), (""), (""), (""), ("u1")⟩ : Row)
    (by decide)

/-- C7: the deduplicator is idempotent — running `dedupe_rows` on its own
output returns that output unchanged (same records, same order). -/
theorem dedupe_rows_idempotent (rows : List Row) :
    dedupe_rows (dedupe_rows rows) = dedupe_rows rows := by
  have hA : ∀ r ∈ dropDupFirst email_norm []
      (rows.filter (fun r => !(email_norm r == ("")))),
      (!(email_norm r == (""))) = true := by
    intro r hr
    exact List.of_mem_filter (p := fun r => !(email_norm r == ("")))
      ((dropDupFirst_sublist email_norm _ []).subset hr)
  have hB : ∀ r ∈ dropDupFirst (fun x => (name_norm x, phone_norm x)) []
      (rows.filter (fun r => email_norm r == (""))),
      (email_norm r == ("")) = true := by
    intro r hr
    exact List.of_mem_filter (p := fun r => email_norm r == (""))
      ((dropDupFirst_sublist _ _ []).subset hr)
  have hAnd := (dropDupFirst_keys_nodup email_norm
      (rows.filter (fun r => !(email_norm r == ("")))) []).1
  have hBnd := (dropDupFirst_keys_nodup (fun x => (name_norm x, phone_norm x))
      (rows.filter (fun r => email_norm r == (""))) []).1
  have hd : dedupe_rows rows =
      dropDupFirst email_norm [] (rows.filter (fun r => !(email_norm r == ("")))) ++
      dropDupFirst (fun x => (name_norm x, phone_norm x)) []
        (rows.filter (fun r => email_norm r == (""))) := rfl
  set A := dropDupFirst email_norm [] (rows.filter (fun r => !(email_norm r == ("")))) with hAdef
  set B := dropDupFirst (fun x => (name_norm x, phone_norm x)) []
      (rows.filter (fun r => email_norm r == (""))) with hBdef
  rw [hd]
  unfold dedupe_rows
  rw [List.filter_append, List.filter_append]
  rw [List.filter_eq_self.mpr hA,
      List.filter_eq_nil_iff.mpr (fun r hr => by
        have := hB r hr
        simp at this
        simp [this]),
      List.filter_eq_nil_iff.mpr (fun r hr => by
        have := hA r hr
        simp at this
        simp [this]),
      List.filter_eq_self.mpr hB]
  rw [List.append_nil, List.nil_append]
  rw [dropDupFirst_id email_norm A [] hAnd (by simp),
      dropDupFirst_id _ B [] hBnd (by simp)]

/-- C10: the deduplicator changes no field of any surviving record — every
output record is (field for field) one of the input records; the temporary
norm keys exist only as key functions and the output carries the original
columns (the source drops the temporary columns from a copy, leaving the
caller's table unmodified). -/
theorem dedupe_rows_mem (rows : List Row) :
    ∀ r ∈ dedupe_rows rows, r ∈ rows := by
  intro r hr
  rcases List.mem_append.mp hr with hr | hr
  · exact ((dropDupFirst_sublist email_norm _ []).trans (List.filter_sublist rows)).subset hr
  · exact ((dropDupFirst_sublist _ _ []).trans (List.filter_sublist rows)).subset hr

/-- C10 witness: a concrete surviving record is one of the inputs. -/
theorem dedupe_rows_mem_witness :
    (⟨("A"), ("a@x.com"), (""), (""), (""), (""), (""), ("u1")⟩ : Row) ∈
      [(⟨("A"), ("a@x.com"), (""), (""), (""), (""), (""), ("u1")⟩ : Row),
       ⟨("B"), (""), ("555"), (""), (""), (""), (""), ("u2")⟩] := by
  apply dedupe_rows_mem
  decide

lemma crawl_loop_nil (fetch : String → Option CrawlPage) (limit : Nat) (s : CrawlState)
    (hq : s.q = []) : crawl_loop fetch limit s = s := by
  rw [crawl_loop]
  split
  · rfl
  · rename_i page rest heq
    rw [hq] at heq
    exact absurd heq (by simp)

lemma crawl_loop_stop (fetch : String → Option CrawlPage) (limit : Nat) (s : CrawlState)
    (page : String) (rest : List String) (hq : s.q = page :: rest)
    (hc : ¬s.checked < limit) : crawl_loop fetch limit s = s := by
  rw [crawl_loop]
  split
  · rfl
  · rename_i p r heq
    rw [hq] at heq
    injection heq with e1 e2
    subst e1
    subst e2
    rw [dif_neg hc]

lemma crawl_loop_dup (fetch : String → Option CrawlPage) (limit : Nat) (s : CrawlState)
    (page : String) (rest : List String) (hq : s.q = page :: rest)
    (hc : s.checked < limit) (hmem : page ∈ s.seen) :
    crawl_loop fetch limit s =
      crawl_loop fetch limit { s with q := rest, dequeued := s.dequeued ++ [page] } := by
  rw [crawl_loop]
  split
  · rename_i heq
    rw [hq] at heq
    exact absurd heq (by simp)
  · rename_i p r heq
    rw [hq] at heq
    injection heq with e1 e2
    subst e1
    subst e2
    rw [dif_pos hc, if_pos hmem]

lemma crawl_loop_fail (fetch : String → Option CrawlPage) (limit : Nat) (s : CrawlState)
    (page : String) (rest : List String) (hq : s.q = page :: rest)
    (hc : s.checked < limit) (hmem : page ∉ s.seen) (hf : fetch page = none) :
    crawl_loop fetch limit s =
      crawl_loop fetch limit { s with
        q := rest, dequeued := s.dequeued ++ [page], seen := s.seen ++ [page],
        fetched := s.fetched ++ [page], errors := s.errors + 1 } := by
  rw [crawl_loop]
  split
  · rename_i heq
    rw [hq] at heq
    exact absurd heq (by simp)
  · rename_i p r heq
    rw [hq] at heq
    injection heq with e1 e2
    subst e1
    subst e2
    rw [dif_pos hc, if_neg hmem, hf]

lemma crawl_loop_succ (fetch : String → Option CrawlPage) (limit : Nat) (s : CrawlState)
    (page : String) (rest : List String) (hq : s.q = page :: rest)
    (hc : s.checked < limit) (hmem : page ∉ s.seen) (pg : CrawlPage)
    (hf : fetch page = some pg) :
    crawl_loop fetch limit s =
      crawl_loop fetch limit { s with
        q := rest ++ pg.internalLinks.filter (fun n => !((s.seen ++ [page]).contains n)),
        dequeued := s.dequeued ++ [page], seen := s.seen ++ [page],
        advisors := s.advisors ++ pg.advisorLinks,
        fetched := s.fetched ++ [page], checked := s.checked + 1 } := by
  rw [crawl_loop]
  split
  · rename_i heq
    rw [hq] at heq
    exact absurd heq (by simp)
  · rename_i p r heq
    rw [hq] at heq
    injection heq with e1 e2
    subst e1
    subst e2
    rw [dif_pos hc, if_neg hmem, hf]

lemma crawl_loop_inv (fetch : String → Option CrawlPage) (limit : Nat) (s : CrawlState) :
    s.checked ≤ limit →
    s.fetched.countP (fun u => (fetch u).isSome) = s.checked →
    s.fetched.countP (fun u => (fetch u).isNone) = s.errors →
    (∀ u ∈ s.fetched, u ∈ s.dequeued) →
    ((crawl_loop fetch limit s).checked ≤ limit ∧
     ((crawl_loop fetch limit s).q = [] ∨ (crawl_loop fetch limit s).checked = limit) ∧
     (crawl_loop fetch limit s).fetched.countP (fun u => (fetch u).isSome) =
       (crawl_loop fetch limit s).checked ∧
     (crawl_loop fetch limit s).fetched.countP (fun u => (fetch u).isNone) =
       (crawl_loop fetch limit s).errors ∧
     (∀ u ∈ (crawl_loop fetch limit s).fetched, u ∈ (crawl_loop fetch limit s).dequeued)) := by
  induction s using crawl_loop.induct fetch limit with
  | case1 x hq =>
    intro h1 h2 h3 h4
    rw [crawl_loop_nil fetch limit x hq]
    exact ⟨h1, Or.inl hq, h2, h3, h4⟩
  | case2 x page rest hq hc hmem ih =>
    intro h1 h2 h3 h4
    rw [crawl_loop_dup fetch limit x page rest hq hc hmem]
    exact ih h1 h2 h3 (fun u hu => List.mem_append_left _ (h4 u hu))
  | case3 x page rest hq hc hmem hf ih =>
    intro h1 h2 h3 h4
    rw [crawl_loop_fail fetch limit x page rest hq hc hmem hf]
    apply ih
    · exact h1
    · simp [List.countP_append, List.countP_cons, hf, h2]
    · simp [List.countP_append, List.countP_cons, hf, h3]
    · intro u hu
      rcases List.mem_append.mp hu with hu | hu
      · exact List.mem_append_left _ (h4 u hu)
      · exact List.mem_append_right _ hu
  | case4 x page rest hq hc hmem pg hf ih =>
    intro h1 h2 h3 h4
    rw [crawl_loop_succ fetch limit x page rest hq hc hmem pg hf]
    apply ih
    · show x.checked + 1 ≤ limit
      omega
    · simp [List.countP_append, List.countP_cons, hf, h2]
    · simp [List.countP_append, List.countP_cons, hf, h3]
    · intro u hu
      rcases List.mem_append.mp hu with hu | hu
      · exact List.mem_append_left _ (h4 u hu)
      · exact List.mem_append_right _ hu
  | case5 x page rest hq hc =>
    intro h1 h2 h3 h4
    rw [crawl_loop_stop fetch limit x page rest hq hc]
    exact ⟨h1, Or.inr (by omega), h2, h3, h4⟩

/-- C8: the deep crawl (a total function, hence terminating) processes at
most `limit` pages: the processed-page counter never exceeds the limit and
equals the number of successfully fetched pages; the loop ends exactly when
the FIFO queue is empty or the limit is reached; every page passed to the
fetcher was dequeued first (a page never dequeued is never fetched), and
the error counter counts exactly the failed fetches of dequeued pages, so
an unvisited page records no error. -/
theorem deep_crawl_bounds (fetch : String → Option CrawlPage) (limit : Nat) (seedUrl : String) :
    (deep_crawl fetch limit seedUrl).checked ≤ limit ∧
    ((deep_crawl fetch limit seedUrl).q = [] ∨
      (deep_crawl fetch limit seedUrl).checked = limit) ∧
    (deep_crawl fetch limit seedUrl).fetched.countP (fun u => (fetch u).isSome) =
      (deep_crawl fetch limit seedUrl).checked ∧
    (deep_crawl fetch limit seedUrl).fetched.countP (fun u => (fetch u).isNone) =
      (deep_crawl fetch limit seedUrl).errors ∧
    (deep_crawl fetch limit seedUrl).fetched.all
      (fun u => (deep_crawl fetch limit seedUrl).dequeued.contains u) = true := by
  obtain ⟨h1, h2, h3, h4, h5⟩ := crawl_loop_inv fetch limit ⟨[seedUrl], [], [], [], [], 0, 0⟩
    (by simp) (by simp) (by simp) (by simp)
  exact ⟨h1, h2, h3, h4,
    List.all_eq_true.mpr (fun u hu => List.elem_eq_true_of_mem (h5 u hu))⟩

/-- C9: in the per-profile loop no failure escapes: the result rows are
exactly the successfully fetched rows that pass the filters (in URL order —
a failed URL contributes no record and every subsequent URL is still
processed), the error counter counts exactly the failed fetches, `kept`
equals the number of accumulated rows, and the run aborts if and only if
the seed-page fetch fails. -/
theorem per_profile_failure_absorbed (seed : Option String)
    (fetchParse : String → Option Row) (cfg : RunCfg) (urls : List String) :
    run_extraction seed fetchParse cfg urls =
      (match seed with
       | none => Except.error ()
       | some _ => Except.ok (profile_loop fetchParse cfg urls)) ∧
    (profile_loop fetchParse cfg urls).1 =
      urls.filterMap (fun u =>
        match fetchParse u with
        | none => none
        | some row => if keep_row cfg row then some row else none) ∧
    (profile_loop fetchParse cfg urls).2.2 =
      urls.countP (fun u => (fetchParse u).isNone) ∧
    (profile_loop fetchParse cfg urls).2.1 =
      (profile_loop fetchParse cfg urls).1.length := by
  refine ⟨rfl, ?_⟩
  induction urls with
  | nil => exact ⟨rfl, by simp [profile_loop], rfl⟩
  | cons u us ih =>
    obtain ⟨ih1, ih2, ih3⟩ := ih
    cases hf : fetchParse u with
    | none =>
      refine ⟨?_, ?_, ?_⟩ <;>
        simp [profile_loop, hf, ih1, ih2, ih3, List.countP_cons]
    | some row =>
      by_cases hk : keep_row cfg row = true
      · refine ⟨?_, ?_, ?_⟩ <;>
          simp [profile_loop, hf, hk, ih1, ih2, ih3, List.countP_cons]
      · refine ⟨?_, ?_, ?_⟩ <;>
          simp [profile_loop, hf, hk, ih1, ih2, ih3, List.countP_cons]

/-- C3 witness: a concrete 10-digit phone number is formatted. -/
theorem normalize_phone_spec_witness :
    ("(514) 555-1234".data.filter pyIsDigit).length = 10 ∧
    normalize_phone ("(514) 555-1234") = ("514-555-1234") := by
  have h := (normalize_phone_spec ("(514) 555-1234")).1 (by decide)
  exact ⟨by decide, h.trans (by decide)⟩

end NBC
